import Mathlib

/-!
Shallow embedding of `src/data_generation.py` (Adler32 stimulus generator).

The script has two functions:

* `generate_string(size_valid, size, data_valid, data)` renders one frame as
  `f"{size_valid}_{size:0>32 binary}_{data_valid}_{ord(data):0>8 binary}"`.
* `generate_datafile(filename, data, random_value_chance)` writes a comment
  line `# {data}` and then runs two sampling loops driven by
  `rand.uniform(0, 1)` draws compared against `random_value_chance`,
  emitting noise frames until a trial succeeds (preamble: then one terminal
  frame carrying `len(data)`; payload: one data frame per character).

Randomness is modelled by an explicit oracle: a list of `Draw` records, one
per loop iteration, carrying the `uniform(0, 1)` draw (a rational), the
`randint(0, 2**32)` size draw (note: the Python `randint` builtin is inclusive on both
ends) and the `chr(randint(65, 122))` noise-character draw.  The
unbounded Python `while True` loops become functions that consume the finite oracle
and return `none` when it is exhausted, so "the run terminates" is rendered
as "the result is `some _` for some finite oracle".
-/

/-- The random draws consumed by one loop iteration: `u` models `rand.uniform(0, 1)`
(always in `[0, 1)`), `size` models `rand.randint(0, 2**32)` (inclusive, so
`size ≤ 2^32`), and `char` models `chr(rand.randint(65, 122))`. -/
structure Draw where
  u : ℚ
  size : ℕ
  char : Char

/-- A logical frame: the four arguments passed to `generate_string`. -/
structure Frame where
  size_valid : Bool
  size : ℕ
  data_valid : Bool
  data : Char
deriving DecidableEq

/-- Binary digits of `n`, most significant first, computed with explicit fuel
so that the kernel can evaluate it; `binDigitsAux fuel n` follows the school
algorithm `bin(n) = bin(n / 2) ++ [n % 2]` and needs `n < fuel`. -/
def binDigitsAux : ℕ → ℕ → List Char
  | 0, _ => []
  | fuel + 1, n =>
    if n < 2 then [if n = 1 then '1' else '0']
    else binDigitsAux fuel (n / 2) ++ [if n % 2 = 1 then '1' else '0']

/-- Models the Python expression `bin(n)[2:]` for `n ≥ 0`: the binary numeral of `n`,
most significant digit first, `"0"` for `0`, no leading zeros otherwise. -/
def pyBin (n : ℕ) : List Char := binDigitsAux (n + 1) n

/-- Models the Python format specifier `f"{s:0>w}"`: pad `s` on the left with
`'0'` up to width `w`; strings already at least `w` long are unchanged. -/
def padZeroLeft (w : ℕ) (l : List Char) : List Char :=
  List.replicate (w - l.length) '0' ++ l

/-- The character `'\0'` used by the generator for data fields whose content is irrelevant. -/
def nulChar : Char := Char.ofNat 0

/-- Embedding of `generate_string` from `src/data_generation.py`:
`"1" if size_valid else "0"`, an underscore, `f"{bin(size)[2:]:0>32}"`, an
underscore, `"1" if data_valid else "0"`, an underscore, and
`f"{bin(ord(data))[2:]:0>8}"`. -/
def generate_string (size_valid : Bool) (size : ℕ) (data_valid : Bool) (data : Char) : String :=
  String.mk ((if size_valid then ['1'] else ['0']) ++
    '_' :: padZeroLeft 32 (pyBin size) ++
    '_' :: (if data_valid then ['1'] else ['0']) ++
    '_' :: padZeroLeft 8 (pyBin data.toNat))

/-- The line written for a frame. -/
def frameLine (f : Frame) : String :=
  generate_string f.size_valid f.size f.data_valid f.data

/-- The preamble loop of `generate_datafile`: draw `uniform(0, 1)`; on success
(`u < random_value_chance`) write the terminal frame
`generate_string(True, len(data), False, "\0")` and stop; otherwise write the
noise frame `generate_string(False, randint(0, 2**32), False, "\0")` and loop.
Returns the emitted frames and the unconsumed draws, or `none` if the oracle
runs out (the Python loop would still be running). -/
def preambleRun (chance : ℚ) (n : ℕ) : List Draw → Option (List Frame × List Draw)
  | [] => none
  | d :: rest =>
    if d.u < chance then some ([⟨true, n, false, nulChar⟩], rest)
    else
      match preambleRun chance n rest with
      | none => none
      | some (fs, rem) => some (⟨false, d.size, false, nulChar⟩ :: fs, rem)

/-- The per-character loop of `generate_datafile`: on success write
`generate_string(False, randint(0, 2**32), True, c)` and stop; otherwise write
the noise frame `generate_string(False, randint(0, 2**32), False,
chr(randint(65, 122)))` and loop. -/
def charRun (chance : ℚ) (c : Char) : List Draw → Option (List Frame × List Draw)
  | [] => none
  | d :: rest =>
    if d.u < chance then some ([⟨false, d.size, true, c⟩], rest)
    else
      match charRun chance c rest with
      | none => none
      | some (fs, rem) => some (⟨false, d.size, false, d.char⟩ :: fs, rem)

/-- The payload phase: run `charRun` once for each character of the data. -/
def payloadRun (chance : ℚ) : List Char → List Draw → Option (List Frame × List Draw)
  | [], draws => some ([], draws)
  | c :: cs, draws =>
    match charRun chance c draws with
    | none => none
    | some (fs, rest) =>
      match payloadRun chance cs rest with
      | none => none
      | some (fs2, rem) => some (fs ++ fs2, rem)

/-- The sequence of frames emitted by a terminating run of
`generate_datafile`: preamble frames followed by payload frames. -/
def generateFrames (data : String) (chance : ℚ) (draws : List Draw) : Option (List Frame) :=
  match preambleRun chance data.length draws with
  | none => none
  | some (fs1, rest) =>
    match payloadRun chance data.data rest with
    | none => none
    | some (fs2, _) => some (fs1 ++ fs2)

/-- Embedding of `generate_datafile` from `src/data_generation.py`: the file
contents as the list of written lines, the comment line `# {data}` followed by
one line per emitted frame; `none` models a run that has not terminated after
consuming the whole oracle. -/
def generate_datafile (data : String) (chance : ℚ) (draws : List Draw) : Option (List String) :=
  (generateFrames data chance draws).map
    (fun fs => ("# " ++ data) :: fs.map frameLine)

/-- Big-endian binary decoding of a digit string (the reading interpretation
used by the round-trip properties of the spec). -/
def binDecode (l : List Char) : ℕ :=
  l.foldl (fun a ch => 2 * a + if ch = '1' then 1 else 0) 0

/-- A binary digit, `0` or `1`. -/
def isBit (ch : Char) : Bool := ch == '0' || ch == '1'

/-- The character of `l` at index `k` (a blank when out of range). -/
def charAt (l : List Char) (k : ℕ) : Char := (l.drop k).headD ' '

/-- Positional transcription of the anchored regular expression
`^[01]_[01]{32}_[01]_[01]{8}$` over a string: total length 45, a bit at
index 0, underscores at indices 1, 34 and 36, bits at indices 2–33, 35 and
37–44. -/
def matchesFrameGrammar (s : String) : Bool :=
  s.data.length == 45 &&
  isBit (charAt s.data 0) &&
  charAt s.data 1 == '_' &&
  ((s.data.drop 2).take 32).all isBit &&
  charAt s.data 34 == '_' &&
  isBit (charAt s.data 35) &&
  charAt s.data 36 == '_' &&
  (s.data.drop 37).all isBit

/-- Models the Python method `str.lower()` on the ASCII strings this script produces. -/
def pyLower (s : String) : String := String.mk (s.data.map Char.toLower)

/-- Models the Python builtin `ascii()` restricted to inputs made of printable
ASCII characters containing no backslash and no quote character: such strings
are returned unchanged except for being wrapped in single quotes. -/
def pyAscii (s : String) : String :=
  String.mk (Char.ofNat 39 :: s.data ++ [Char.ofNat 39])

/-- Embedding of the `__main__` block: `dat = ascii(sys.argv[1])` followed by
`generate_datafile(dat.lower(), dat, 0.25)`.  A missing `sys.argv[1]` is
an uncaught Python `IndexError`, modelled as `Except.error` carrying the
Python message and, in particular, no file contents at all; on success the
result carries the output filename and the written lines (`none` inside when
the run did not terminate on the given oracle). -/
def mainRun (argv : List String) (draws : List Draw) :
    Except String (Option (String × List String)) :=
  match argv[1]? with
  | none => Except.error "IndexError: list index out of range"
  | some arg =>
    let dat := pyAscii arg
    Except.ok ((generate_datafile dat (0.25 : ℚ) draws).map
      (fun lines => (pyLower dat, lines)))


/-- The rational one half, given by its reduced fraction. -/
def ratHalf : ℚ := ⟨1, 2, by norm_num, by norm_num⟩

/-- The rational three quarters, given by its reduced fraction. -/
def ratThreeQuarters : ℚ := ⟨3, 4, by norm_num, by norm_num⟩

lemma binDecode_append_bit (l : List Char) (ch : Char) :
    binDecode (l ++ [ch]) = 2 * binDecode l + if ch = '1' then 1 else 0 := by
  simp [binDecode, List.foldl_append]

lemma foldl_decode_replicate (k : ℕ) :
    List.foldl (fun a ch => 2 * a + if ch = '1' then 1 else 0) 0
      (List.replicate k '0') = 0 := by
  induction k with
  | zero => rfl
  | succ k ih =>
    rw [List.replicate_succ, List.foldl_cons]
    simpa [if_neg (by decide : ¬ ('0' : Char) = '1')] using ih

lemma binDecode_padZeroLeft (w : ℕ) (l : List Char) :
    binDecode (padZeroLeft w l) = binDecode l := by
  simp [padZeroLeft, binDecode, List.foldl_append, foldl_decode_replicate]

lemma binDecode_binDigitsAux : ∀ fuel n, n < fuel → binDecode (binDigitsAux fuel n) = n := by
  intro fuel
  induction fuel with
  | zero => intro n h; omega
  | succ fuel ih =>
    intro n h
    by_cases h2 : n < 2
    · simp only [binDigitsAux]
      rw [if_pos h2]
      interval_cases n <;> decide
    · simp only [binDigitsAux]
      rw [if_neg h2, binDecode_append_bit, ih (n / 2) (by omega)]
      have hbit : (if (if n % 2 = 1 then '1' else '0') = '1' then 1 else 0 : ℕ) = n % 2 := by
        rcases Nat.mod_two_eq_zero_or_one n with h3 | h3 <;> rw [h3] <;> decide
      rw [hbit]
      omega

lemma two_pow_split (w : ℕ) (hw : 1 ≤ w) : 2 ^ w = 2 * 2 ^ (w - 1) := by
  conv_lhs => rw [show w = (w - 1) + 1 by omega]
  rw [pow_succ]
  ring

lemma binDigitsAux_length_le : ∀ fuel n w, n < fuel → 1 ≤ w → n < 2 ^ w →
    (binDigitsAux fuel n).length ≤ w := by
  intro fuel
  induction fuel with
  | zero => intro n w h; omega
  | succ fuel ih =>
    intro n w h hw hpow
    by_cases h2 : n < 2
    · simp only [binDigitsAux]
      rw [if_pos h2]
      simpa using hw
    · simp only [binDigitsAux]
      rw [if_neg h2]
      rw [List.length_append, List.length_singleton]
      have hw2 : 2 ≤ w := by
        by_contra hcon
        have hw1 : w = 1 := by omega
        subst hw1
        rw [pow_one] at hpow
        omega
      have hsplit := two_pow_split w hw
      have hpow2 : n / 2 < 2 ^ (w - 1) := by omega
      have := ih (n / 2) (w - 1) (by omega) (by omega) hpow2
      omega

lemma binDigitsAux_length_ge : ∀ fuel n w, n < fuel → 2 ^ w ≤ n →
    w + 1 ≤ (binDigitsAux fuel n).length := by
  intro fuel
  induction fuel with
  | zero => intro n w h; omega
  | succ fuel ih =>
    intro n w h hpow
    by_cases h2 : n < 2
    · have hw : w = 0 := by
        by_contra hcon
        have h1w : 1 ≤ w := Nat.one_le_iff_ne_zero.mpr hcon
        have h2w : 2 ≤ 2 ^ w := by
          calc (2 : ℕ) = 2 ^ 1 := (pow_one 2).symm
          _ ≤ 2 ^ w := Nat.pow_le_pow_right (by omega) h1w
        omega
      subst hw
      simp only [binDigitsAux]
      rw [if_pos h2]
      simp
    · simp only [binDigitsAux]
      rw [if_neg h2, List.length_append, List.length_singleton]
      rcases Nat.eq_zero_or_pos w with hw | hw
      · omega
      · have hsplit := two_pow_split w hw
        have hpow2 : 2 ^ (w - 1) ≤ n / 2 := by omega
        have := ih (n / 2) (w - 1) (by omega) hpow2
        omega

lemma binDigitsAux_bits : ∀ fuel n ch, ch ∈ binDigitsAux fuel n → ch = '0' ∨ ch = '1' := by
  intro fuel
  induction fuel with
  | zero => intro n ch h; simp [binDigitsAux] at h
  | succ fuel ih =>
    intro n ch h
    by_cases h2 : n < 2
    · simp only [binDigitsAux] at h
      rw [if_pos h2] at h
      rw [List.mem_singleton] at h
      subst h
      by_cases h1 : n = 1 <;> simp [h1]
    · simp only [binDigitsAux] at h
      rw [if_neg h2] at h
      rcases List.mem_append.mp h with h | h
      · exact ih _ _ h
      · rw [List.mem_singleton] at h
        subst h
        by_cases h1 : n % 2 = 1 <;> simp [h1]

lemma binDecode_pyBin (n : ℕ) : binDecode (pyBin n) = n :=
  binDecode_binDigitsAux (n + 1) n (Nat.lt_succ_self n)

lemma pyBin_length_le {n w : ℕ} (hw : 1 ≤ w) (h : n < 2 ^ w) : (pyBin n).length ≤ w :=
  binDigitsAux_length_le (n + 1) n w (Nat.lt_succ_self n) hw h

lemma pyBin_length_ge {n w : ℕ} (h : 2 ^ w ≤ n) : w + 1 ≤ (pyBin n).length :=
  binDigitsAux_length_ge (n + 1) n w (Nat.lt_succ_self n) h

lemma pyBin_bits {n : ℕ} {ch : Char} (h : ch ∈ pyBin n) : ch = '0' ∨ ch = '1' :=
  binDigitsAux_bits (n + 1) n ch h

lemma padZeroLeft_length (w : ℕ) (l : List Char) :
    (padZeroLeft w l).length = max w l.length := by
  simp [padZeroLeft]
  omega

lemma padZeroLeft_length_of_le {w : ℕ} {l : List Char} (h : l.length ≤ w) :
    (padZeroLeft w l).length = w := by
  simp [padZeroLeft]
  omega

lemma padZeroLeft_bits {w : ℕ} {l : List Char} (hl : ∀ ch ∈ l, ch = '0' ∨ ch = '1') :
    ∀ ch ∈ padZeroLeft w l, ch = '0' ∨ ch = '1' := by
  intro ch h
  rw [padZeroLeft] at h
  rcases List.mem_append.mp h with h | h
  · exact Or.inl (List.eq_of_mem_replicate h)
  · exact hl ch h

lemma all_isBit_of_bits {l : List Char} (h : ∀ ch ∈ l, ch = '0' ∨ ch = '1') :
    l.all isBit = true := by
  rw [List.all_eq_true]
  intro ch hch
  rcases h ch hch with rfl | rfl <;> decide

lemma generate_string_data (sv : Bool) (size : ℕ) (dv : Bool) (c : Char) :
    (generate_string sv size dv c).data =
      (if sv then ['1'] else ['0']) ++ '_' :: padZeroLeft 32 (pyBin size) ++
      '_' :: (if dv then ['1'] else ['0']) ++ '_' :: padZeroLeft 8 (pyBin c.toNat) := rfl

lemma generate_string_data_cons (sv : Bool) (size : ℕ) (dv : Bool) (c : Char) :
    ∃ b0 b1 : Char, (b0 = '0' ∨ b0 = '1') ∧ (b1 = '0' ∨ b1 = '1') ∧
      (generate_string sv size dv c).data =
        b0 :: '_' :: (padZeroLeft 32 (pyBin size) ++
          '_' :: b1 :: '_' :: padZeroLeft 8 (pyBin c.toNat)) := by
  refine ⟨if sv then '1' else '0', if dv then '1' else '0', ?_, ?_, ?_⟩
  · cases sv <;> simp
  · cases dv <;> simp
  · rw [generate_string_data]
    cases sv <;> cases dv <;> simp

lemma generate_string_length (sv : Bool) (size : ℕ) (dv : Bool) (c : Char) :
    (generate_string sv size dv c).length =
      5 + (padZeroLeft 32 (pyBin size)).length + (padZeroLeft 8 (pyBin c.toNat)).length := by
  show (generate_string sv size dv c).data.length = _
  rw [generate_string_data]
  cases sv <;> cases dv <;> (simp [List.length_append]; omega)

lemma generate_string_length_45 (sv dv : Bool) {size : ℕ} {c : Char}
    (h1 : size < 2 ^ 32) (h2 : c.toNat < 256) :
    (generate_string sv size dv c).length = 45 := by
  rw [generate_string_length,
    padZeroLeft_length_of_le (pyBin_length_le (by omega) h1),
    padZeroLeft_length_of_le (pyBin_length_le (by omega) h2)]

lemma matchesFrameGrammar_generate_string (sv dv : Bool) {size : ℕ} {c : Char}
    (h1 : size < 2 ^ 32) (h2 : c.toNat < 256) :
    matchesFrameGrammar (generate_string sv size dv c) = true := by
  obtain ⟨b0, b1, hb0, hb1, hdata⟩ := generate_string_data_cons sv size dv c
  have hl32 : (padZeroLeft 32 (pyBin size)).length = 32 :=
    padZeroLeft_length_of_le (pyBin_length_le (by omega) h1)
  have hl8 : (padZeroLeft 8 (pyBin c.toNat)).length = 8 :=
    padZeroLeft_length_of_le (pyBin_length_le (by omega) h2)
  have hdrop2 : (generate_string sv size dv c).data.drop 2 =
      padZeroLeft 32 (pyBin size) ++ '_' :: b1 :: '_' :: padZeroLeft 8 (pyBin c.toNat) := by
    rw [hdata]
    exact rfl
  have hdrop34 : (generate_string sv size dv c).data.drop 34 =
      '_' :: b1 :: '_' :: padZeroLeft 8 (pyBin c.toNat) := by
    rw [show (34 : ℕ) = 2 + 32 from rfl, ← List.drop_drop, hdrop2, List.drop_left' hl32]
  have hdrop35 : (generate_string sv size dv c).data.drop 35 =
      b1 :: '_' :: padZeroLeft 8 (pyBin c.toNat) := by
    rw [show (35 : ℕ) = 34 + 1 from rfl, ← List.drop_drop, hdrop34]
    exact rfl
  have hdrop36 : (generate_string sv size dv c).data.drop 36 =
      '_' :: padZeroLeft 8 (pyBin c.toNat) := by
    rw [show (36 : ℕ) = 35 + 1 from rfl, ← List.drop_drop, hdrop35]
    exact rfl
  have hdrop37 : (generate_string sv size dv c).data.drop 37 =
      padZeroLeft 8 (pyBin c.toNat) := by
    rw [show (37 : ℕ) = 36 + 1 from rfl, ← List.drop_drop, hdrop36]
    exact rfl
  have hlen : (generate_string sv size dv c).data.length = 45 :=
    generate_string_length_45 sv dv h1 h2
  rw [matchesFrameGrammar]
  simp only [Bool.and_eq_true]
  refine ⟨⟨⟨⟨⟨⟨⟨?_, ?_⟩, ?_⟩, ?_⟩, ?_⟩, ?_⟩, ?_⟩, ?_⟩
  · simp [hlen]
  · rw [charAt, List.drop_zero, hdata]
    rcases hb0 with rfl | rfl <;> rfl
  · rw [charAt, hdata]
    rfl
  · rw [hdrop2, List.take_left' hl32]
    exact all_isBit_of_bits (padZeroLeft_bits (fun ch hch => pyBin_bits hch))
  · rw [charAt, hdrop34]
    rfl
  · rw [charAt, hdrop35]
    rcases hb1 with rfl | rfl <;> rfl
  · rw [charAt, hdrop36]
    rfl
  · rw [hdrop37]
    exact all_isBit_of_bits (padZeroLeft_bits (fun ch hch => pyBin_bits hch))

lemma length_of_matchesFrameGrammar {s : String} (h : matchesFrameGrammar s = true) :
    s.data.length = 45 := by
  rw [matchesFrameGrammar] at h
  simp only [Bool.and_eq_true] at h
  have := h.1.1.1.1.1.1.1
  simpa using this

lemma frameLine_headD_ne_hash (f : Frame) : (frameLine f).data.headD ' ' ≠ '#' := by
  cases h1 : f.size_valid <;>
    simp [frameLine, generate_string_data, h1]

lemma preambleRun_spec {chance : ℚ} {n : ℕ} :
    ∀ {draws fs rest}, preambleRun chance n draws = some (fs, rest) →
      fs.filter (fun f => f.size_valid) = [⟨true, n, false, nulChar⟩] ∧
      fs.filter (fun f => f.data_valid) = [] ∧
      rest <:+ draws ∧
      ∀ f ∈ fs, f = ⟨true, n, false, nulChar⟩ ∨
        ∃ d ∈ draws, f = ⟨false, d.size, false, nulChar⟩ := by
  intro draws
  induction draws with
  | nil => intro fs rest h; simp [preambleRun] at h
  | cons d rest' ih =>
    intro fs rest h
    by_cases hu : d.u < chance
    · simp only [preambleRun] at h
      rw [if_pos hu] at h
      simp only [Option.some.injEq, Prod.mk.injEq] at h
      obtain ⟨hfs, hrest⟩ := h
      subst hfs
      subst hrest
      refine ⟨by simp [List.filter], by simp [List.filter], List.suffix_cons d rest', ?_⟩
      intro f hf
      rw [List.mem_singleton] at hf
      exact Or.inl hf
    · simp only [preambleRun] at h
      rw [if_neg hu] at h
      rcases hp : preambleRun chance n rest' with _ | ⟨fs', rem⟩ <;> rw [hp] at h
      · simp at h
      · simp only [Option.some.injEq, Prod.mk.injEq] at h
        obtain ⟨hfs, hrest⟩ := h
        subst hfs
        subst hrest
        obtain ⟨h1, h2, h3, h4⟩ := ih hp
        refine ⟨by simpa using h1, by simpa using h2,
          h3.trans (List.suffix_cons d rest'), ?_⟩
        intro f hf
        rcases List.mem_cons.mp hf with hf | hf
        · exact Or.inr ⟨d, List.mem_cons_self d rest', hf⟩
        · rcases h4 f hf with h5 | ⟨d', hd', h5⟩
          · exact Or.inl h5
          · exact Or.inr ⟨d', List.mem_cons_of_mem d hd', h5⟩

lemma charRun_spec {chance : ℚ} {c : Char} :
    ∀ {draws fs rest}, charRun chance c draws = some (fs, rest) →
      fs.filter (fun f => f.size_valid) = [] ∧
      (fs.filter (fun f => f.data_valid)).map (fun f => f.data) = [c] ∧
      rest <:+ draws ∧
      ∀ f ∈ fs, ∃ d ∈ draws, f = ⟨false, d.size, true, c⟩ ∨
        f = ⟨false, d.size, false, d.char⟩ := by
  intro draws
  induction draws with
  | nil => intro fs rest h; simp [charRun] at h
  | cons d rest' ih =>
    intro fs rest h
    by_cases hu : d.u < chance
    · simp only [charRun] at h
      rw [if_pos hu] at h
      simp only [Option.some.injEq, Prod.mk.injEq] at h
      obtain ⟨hfs, hrest⟩ := h
      subst hfs
      subst hrest
      refine ⟨by simp [List.filter], by simp [List.filter], List.suffix_cons d rest', ?_⟩
      intro f hf
      rw [List.mem_singleton] at hf
      exact ⟨d, List.mem_cons_self d rest', Or.inl hf⟩
    · simp only [charRun] at h
      rw [if_neg hu] at h
      rcases hp : charRun chance c rest' with _ | ⟨fs', rem⟩ <;> rw [hp] at h
      · simp at h
      · simp only [Option.some.injEq, Prod.mk.injEq] at h
        obtain ⟨hfs, hrest⟩ := h
        subst hfs
        subst hrest
        obtain ⟨h1, h2, h3, h4⟩ := ih hp
        refine ⟨by simpa using h1, by simpa using h2,
          h3.trans (List.suffix_cons d rest'), ?_⟩
        intro f hf
        rcases List.mem_cons.mp hf with hf | hf
        · exact ⟨d, List.mem_cons_self d rest', Or.inr hf⟩
        · obtain ⟨d', hd', h5⟩ := h4 f hf
          exact ⟨d', List.mem_cons_of_mem d hd', h5⟩

lemma payloadRun_spec {chance : ℚ} :
    ∀ {cs : List Char} {draws fs rest}, payloadRun chance cs draws = some (fs, rest) →
      fs.filter (fun f => f.size_valid) = [] ∧
      (fs.filter (fun f => f.data_valid)).map (fun f => f.data) = cs ∧
      rest <:+ draws ∧
      ∀ f ∈ fs, ∃ d ∈ draws, (∃ k ∈ cs, f = ⟨false, d.size, true, k⟩) ∨
        f = ⟨false, d.size, false, d.char⟩ := by
  intro cs
  induction cs with
  | nil =>
    intro draws fs rest h
    simp only [payloadRun, Option.some.injEq, Prod.mk.injEq] at h
    obtain ⟨hfs, hrest⟩ := h
    subst hfs
    subst hrest
    exact ⟨rfl, rfl, List.suffix_refl draws, by simp⟩
  | cons k cs ih =>
    intro draws fs rest h
    simp only [payloadRun] at h
    split at h
    · simp at h
    · rename_i fs1 rest1 hc
      split at h
      · simp at h
      · rename_i fs2 rest2 hp
        simp only [Option.some.injEq, Prod.mk.injEq] at h
        obtain ⟨hfs, hrest⟩ := h
        subst hfs
        subst hrest
        obtain ⟨c1, c2, c3, c4⟩ := charRun_spec hc
        obtain ⟨p1, p2, p3, p4⟩ := ih hp
        refine ⟨?_, ?_, p3.trans c3, ?_⟩
        · rw [List.filter_append, c1, p1]
          rfl
        · rw [List.filter_append, List.map_append, c2, p2]
          rfl
        · intro f hf
          rcases List.mem_append.mp hf with hf | hf
          · obtain ⟨d, hd, h5⟩ := c4 f hf
            rcases h5 with h5 | h5
            · exact ⟨d, hd, Or.inl ⟨k, List.mem_cons_self k cs, h5⟩⟩
            · exact ⟨d, hd, Or.inr h5⟩
          · obtain ⟨d, hd, h5⟩ := p4 f hf
            refine ⟨d, c3.subset hd, ?_⟩
            rcases h5 with ⟨k', hk', h5⟩ | h5
            · exact Or.inl ⟨k', List.mem_cons_of_mem k hk', h5⟩
            · exact Or.inr h5

lemma generateFrames_eq_some {data : String} {chance : ℚ} {draws : List Draw} {fs : List Frame}
    (h : generateFrames data chance draws = some fs) :
    ∃ fs1 rest fs2 rest2, preambleRun chance data.length draws = some (fs1, rest) ∧
      payloadRun chance data.data rest = some (fs2, rest2) ∧ fs = fs1 ++ fs2 := by
  simp only [generateFrames] at h
  split at h
  · simp at h
  · rename_i fs1 rest hp
    split at h
    · simp at h
    · rename_i fs2 rest2 hq
      simp only [Option.some.injEq] at h
      exact ⟨fs1, rest, fs2, rest2, hp, hq, h.symm⟩

lemma generate_datafile_eq_some {data : String} {chance : ℚ} {draws : List Draw}
    {lines : List String} (h : generate_datafile data chance draws = some lines) :
    ∃ fs, generateFrames data chance draws = some fs ∧
      lines = ("# " ++ data) :: fs.map frameLine := by
  rw [generate_datafile] at h
  rcases hg : generateFrames data chance draws with _ | fs <;> rw [hg] at h
  · simp at h
  · simp only [Option.map_some', Option.some.injEq] at h
    exact ⟨fs, rfl, h.symm⟩

/-- C1: for every terminating run of `generate_datafile` the written file
starts with the comment line `# ` followed by `data` (and no frame line can
be mistaken for a comment, as each starts with a bit); among the emitted
frames exactly one has `size_valid = true`, namely the terminal frame whose
size field carries `data.length`; and the `data` fields of the frames with
`data_valid = true`, read in file order, are exactly the characters of
`data`.  Together with `generate_string_size_roundtrip` and
`generate_string_char_roundtrip` this is the reconstruction property. -/
theorem generate_datafile_reconstructs (data : String) (chance : ℚ) (draws : List Draw)
    (lines : List String) (h : generate_datafile data chance draws = some lines) :
    ∃ fs : List Frame,
      lines = ("# " ++ data) :: fs.map frameLine ∧
      fs.filter (fun f => f.size_valid) = [⟨true, data.length, false, nulChar⟩] ∧
      (fs.filter (fun f => f.data_valid)).map (fun f => f.data) = data.data ∧
      ∀ l ∈ fs.map frameLine, l.data.headD ' ' ≠ '#' := by
  obtain ⟨fs, hg, hlines⟩ := generate_datafile_eq_some h
  obtain ⟨fs1, rest, fs2, rest2, hp, hq, hfs⟩ := generateFrames_eq_some hg
  obtain ⟨a1, a2, _, _⟩ := preambleRun_spec hp
  obtain ⟨b1, b2, _, _⟩ := payloadRun_spec hq
  subst hfs
  refine ⟨fs1 ++ fs2, hlines, ?_, ?_, ?_⟩
  · rw [List.filter_append, a1, b1]
    rfl
  · rw [List.filter_append, List.map_append, a2, b2]
    rfl
  · intro l hl
    obtain ⟨f, _, rfl⟩ := List.mem_map.mp hl
    exact frameLine_headD_ne_hash f

/-- Witness for C1: a concrete terminating run on `"Hi"`. -/
theorem generate_datafile_reconstructs_witness :
    ∃ fs : List Frame,
      (["# Hi", "1_00000000000000000000000000000010_0_00000000",
        "0_00000000000000000000000000000000_1_01001000",
        "0_00000000000000000000000000000000_1_01101001"] : List String) =
        ("# " ++ "Hi") :: fs.map frameLine ∧
      fs.filter (fun f => f.size_valid) = [⟨true, ("Hi" : String).length, false, nulChar⟩] ∧
      (fs.filter (fun f => f.data_valid)).map (fun f => f.data) = ("Hi" : String).data ∧
      ∀ l ∈ fs.map frameLine, l.data.headD ' ' ≠ '#' :=
  generate_datafile_reconstructs "Hi" 1 [⟨0, 0, 'A'⟩, ⟨0, 0, 'A'⟩, ⟨0, 0, 'A'⟩]
    ["# Hi", "1_00000000000000000000000000000010_0_00000000",
      "0_00000000000000000000000000000000_1_01001000",
      "0_00000000000000000000000000000000_1_01101001"] (by decide)

/-- C3 counterexample: at the in-range input `size_valid = True`, `size = 2`,
`data_valid = False`, `data_char = '\0'` the output of `generate_string` does
not have length 44 (it has length 45: the claimed arithmetic
`1+1+32+1+1+8 = 44` misses one of the three underscore separators). -/
theorem generate_string_length_not_44 :
    (generate_string true 2 false nulChar).length ≠ 44 := by decide

/-- C3 as amended: for every `size_valid`, `data_valid`, every
`size < 2^32` and every ASCII `data_char`, the output of `generate_string`
has length exactly 45 (not 44) and matches the anchored grammar
`^[01]_[01]{32}_[01]_[01]{8}$`; the two binary fields are left-zero-padded
to widths 32 and 8 without truncation. -/
theorem generate_string_format (sv dv : Bool) (size : ℕ) (c : Char)
    (h1 : size < 2 ^ 32) (h2 : c.toNat < 128) :
    (generate_string sv size dv c).length = 45 ∧
    matchesFrameGrammar (generate_string sv size dv c) = true :=
  ⟨generate_string_length_45 sv dv h1 (by omega),
    matchesFrameGrammar_generate_string sv dv h1 (by omega)⟩

/-- Witness for the amended C3 at a concrete in-range input. -/
theorem generate_string_format_witness :
    (generate_string true 5 false 'A').length = 45 ∧
    matchesFrameGrammar (generate_string true 5 false 'A') = true :=
  generate_string_format true false 5 'A' (by norm_num) (by decide)

/-- C5: for every `size < 2^32` and arbitrary values of the other inputs,
decoding characters 3 through 34 of the output of `generate_string` (the
32-bit field) as a big-endian binary numeral yields back `size`. -/
theorem generate_string_size_roundtrip (sv dv : Bool) (size : ℕ) (c : Char)
    (h : size < 2 ^ 32) :
    binDecode (((generate_string sv size dv c).data.drop 2).take 32) = size := by
  obtain ⟨b0, b1, _, _, hdata⟩ := generate_string_data_cons sv size dv c
  have hl32 : (padZeroLeft 32 (pyBin size)).length = 32 :=
    padZeroLeft_length_of_le (pyBin_length_le (by omega) h)
  have hdrop2 : (generate_string sv size dv c).data.drop 2 =
      padZeroLeft 32 (pyBin size) ++ '_' :: b1 :: '_' :: padZeroLeft 8 (pyBin c.toNat) := by
    rw [hdata]
    exact rfl
  rw [hdrop2, List.take_left' hl32, binDecode_padZeroLeft, binDecode_pyBin]

/-- Witness for C5 at `size = 5`. -/
theorem generate_string_size_roundtrip_witness :
    binDecode (((generate_string true 5 false 'A').data.drop 2).take 32) = 5 :=
  generate_string_size_roundtrip true false 5 'A' (by norm_num)

/-- C6: for every ASCII `data_char` and arbitrary values of the other
inputs, decoding the last 8 characters of the output of `generate_string`
(the 8-bit field) as a big-endian binary numeral yields the code point of
`data_char`. -/
theorem generate_string_char_roundtrip (sv dv : Bool) (size : ℕ) (c : Char)
    (h : c.toNat < 128) :
    binDecode ((generate_string sv size dv c).data.drop
      ((generate_string sv size dv c).data.length - 8)) = c.toNat := by
  obtain ⟨b0, b1, _, _, hdata⟩ := generate_string_data_cons sv size dv c
  have hl8 : (padZeroLeft 8 (pyBin c.toNat)).length = 8 :=
    padZeroLeft_length_of_le (pyBin_length_le (by omega) (by omega))
  have hsplit : (generate_string sv size dv c).data =
      (b0 :: '_' :: (padZeroLeft 32 (pyBin size) ++ ['_', b1, '_'])) ++
        padZeroLeft 8 (pyBin c.toNat) := by
    rw [hdata]
    simp
  have hlen : (generate_string sv size dv c).data.length - 8 =
      (b0 :: '_' :: (padZeroLeft 32 (pyBin size) ++ ['_', b1, '_'])).length := by
    rw [hsplit]
    simp [List.length_append, hl8]
  rw [hlen, hsplit, List.drop_left, binDecode_padZeroLeft, binDecode_pyBin]

/-- Witness for C6 at `data_char = 'A'` (code point 65). -/
theorem generate_string_char_roundtrip_witness :
    binDecode ((generate_string false 3 true 'A').data.drop
      ((generate_string false 3 true 'A').data.length - 8)) = ('A' : Char).toNat :=
  generate_string_char_roundtrip false true 3 'A' (by decide)

/-- C10: for every `data_char` whose code point is at least 256 (and any
values of the other inputs), `generate_string` performs no bounds check: the
8-bit field is longer than 8 characters, the output is longer than 44
characters, and the fixed-width grammar is violated. -/
theorem generate_string_data_overflow (sv dv : Bool) (size : ℕ) (c : Char)
    (h : 256 ≤ c.toNat) :
    8 < (padZeroLeft 8 (pyBin c.toNat)).length ∧
    44 < (generate_string sv size dv c).length ∧
    matchesFrameGrammar (generate_string sv size dv c) = false := by
  have h256 : 2 ^ 8 ≤ c.toNat := le_trans (by norm_num) h
  have h9 : 9 ≤ (pyBin c.toNat).length := pyBin_length_ge h256
  have hp8 : 9 ≤ (padZeroLeft 8 (pyBin c.toNat)).length := by
    rw [padZeroLeft_length]
    omega
  have hp32 : 32 ≤ (padZeroLeft 32 (pyBin size)).length := by
    rw [padZeroLeft_length]
    omega
  have hgt : 46 ≤ (generate_string sv size dv c).length := by
    rw [generate_string_length]
    omega
  refine ⟨by omega, by omega, ?_⟩
  by_contra hcon
  rw [Bool.not_eq_false] at hcon
  have h45 := length_of_matchesFrameGrammar hcon
  have : (generate_string sv size dv c).length = (generate_string sv size dv c).data.length := rfl
  omega

/-- Witness for C10 at the first out-of-range code point, 256. -/
theorem generate_string_data_overflow_witness :
    8 < (padZeroLeft 8 (pyBin (Char.ofNat 256).toNat)).length ∧
    44 < (generate_string false 0 false (Char.ofNat 256)).length ∧
    matchesFrameGrammar (generate_string false 0 false (Char.ofNat 256)) = false :=
  generate_string_data_overflow false false 0 (Char.ofNat 256) (by decide)

/-- C2 counterexample: a terminating run (chance one half; the first trial
fails and its noise size draw is `2^32`, a value `rand.randint(0, 2**32)`
can return because Python `randint` is inclusive) whose second line has 46
characters — so it neither has exactly 44 characters nor matches the
grammar `^[01]_[01]{32}_[01]_[01]{8}$`. -/
theorem generate_datafile_line_not_44 :
    generate_datafile "" ratHalf [⟨ratThreeQuarters, 2 ^ 32, 'A'⟩, ⟨0, 0, 'A'⟩] =
      some ["# ", "0_100000000000000000000000000000000_0_00000000",
        "1_00000000000000000000000000000000_0_00000000"] ∧
    ¬ (("0_100000000000000000000000000000000_0_00000000" : String).length = 44 ∧
        matchesFrameGrammar "0_100000000000000000000000000000000_0_00000000" = true) := by
  constructor
  · decide
  · decide

/-- C2 as amended: every line after the comment line is a frame string of
exactly 45 characters (not 44: the three separators make the in-range frame
length 45) matching `^[01]_[01]{32}_[01]_[01]{8}$`, provided every character
of `data` has code point below 256, `data` is shorter than `2^32`, every
size draw is below `2^32` (Python `randint(0, 2**32)` is inclusive, so the
boundary draw `2^32` breaks this), and every noise-character draw is in the
sampled range 65–122. -/
theorem generate_datafile_line_format (data : String) (chance : ℚ) (draws : List Draw)
    (lines : List String) (l : String)
    (hdata : ∀ c ∈ data.data, c.toNat < 256)
    (hn : data.length < 2 ^ 32)
    (hsize : ∀ d ∈ draws, d.size < 2 ^ 32)
    (hchar : ∀ d ∈ draws, 65 ≤ d.char.toNat ∧ d.char.toNat ≤ 122)
    (h : generate_datafile data chance draws = some lines)
    (hl : l ∈ lines.drop 1) :
    l.length = 45 ∧ matchesFrameGrammar l = true := by
  obtain ⟨fs, hg, hlines⟩ := generate_datafile_eq_some h
  subst hlines
  rw [show (("# " ++ data) :: fs.map frameLine).drop 1 = fs.map frameLine from rfl] at hl
  obtain ⟨f, hf, rfl⟩ := List.mem_map.mp hl
  obtain ⟨fs1, rest, fs2, rest2, hp, hq, hfs⟩ := generateFrames_eq_some hg
  subst hfs
  have hfm : f.size < 2 ^ 32 ∧ f.data.toNat < 256 := by
    rcases List.mem_append.mp hf with hf | hf
    · rcases (preambleRun_spec hp).2.2.2 f hf with rfl | ⟨d, hd, rfl⟩
      · exact ⟨hn, by show nulChar.toNat < 256; decide⟩
      · exact ⟨hsize d hd, by show nulChar.toNat < 256; decide⟩
    · obtain ⟨d, hd, hcase⟩ := (payloadRun_spec hq).2.2.2 f hf
      have hd' : d ∈ draws := ((preambleRun_spec hp).2.2.1).subset hd
      rcases hcase with ⟨k, hk, rfl⟩ | rfl
      · exact ⟨hsize d hd', hdata k hk⟩
      · refine ⟨hsize d hd', ?_⟩
        show d.char.toNat < 256
        have := (hchar d hd').2
        omega
  simp only [frameLine]
  exact ⟨generate_string_length_45 f.size_valid f.data_valid hfm.1 hfm.2,
    matchesFrameGrammar_generate_string f.size_valid f.data_valid hfm.1 hfm.2⟩

/-- Witness for the amended C2: the terminal line of a concrete run. -/
theorem generate_datafile_line_format_witness :
    ("1_00000000000000000000000000000001_0_00000000" : String).length = 45 ∧
    matchesFrameGrammar "1_00000000000000000000000000000001_0_00000000" = true :=
  generate_datafile_line_format "A" 1 [⟨0, 1, 'B'⟩, ⟨0, 0, 'B'⟩]
    ["# A", "1_00000000000000000000000000000001_0_00000000",
      "0_00000000000000000000000000000000_1_01000001"]
    "1_00000000000000000000000000000001_0_00000000"
    (by decide) (by decide) (by decide) (by decide) (by decide) (by decide)

/-- C4 counterexample: with `data = "Hi"` and `random_value_chance = 1.0`
the file is not independent of the random draws: the payload phase writes
`generate_string(False, rand.randint(0, 2**32), True, c)`, so when the size
draws are 1 the third and fourth lines carry
`..0001` in their 32-bit fields instead of the claimed all-zero fields. -/
theorem generate_hi_not_fixed :
    generate_datafile "Hi" 1 [⟨0, 1, 'A'⟩, ⟨0, 1, 'A'⟩, ⟨0, 1, 'A'⟩] ≠
      some ["# Hi", "1_00000000000000000000000000000010_0_00000000",
        "0_00000000000000000000000000000000_1_01001000",
        "0_00000000000000000000000000000000_1_01101001"] := by decide

/-- C4 as amended: with `data = "Hi"` and `random_value_chance = 1.0` every
run terminates after exactly three trials and produces line 1 `# Hi`, line 2
`1_00000000000000000000000000000010_0_00000000`, and data-frame lines 3 and 4
for `'H'` and `'i'` whose 32-bit size fields carry the respective random
size draws (they are all zero exactly when those draws are 0, as in the
witness). -/
theorem generate_hi_chance_one (d0 d1 d2 : Draw)
    (h0 : d0.u < 1) (h1 : d1.u < 1) (h2 : d2.u < 1) :
    generate_datafile "Hi" 1 [d0, d1, d2] =
      some ["# Hi", "1_00000000000000000000000000000010_0_00000000",
        generate_string false d1.size true 'H',
        generate_string false d2.size true 'i'] := by
  have e1 : preambleRun 1 ("Hi" : String).length [d0, d1, d2] =
      some ([⟨true, 2, false, nulChar⟩], [d1, d2]) := by
    simp only [preambleRun]
    rw [if_pos h0]
    exact rfl
  have e2 : charRun 1 'H' [d1, d2] = some ([⟨false, d1.size, true, 'H'⟩], [d2]) := by
    simp only [charRun]
    rw [if_pos h1]
  have e3 : charRun 1 'i' [d2] = some ([⟨false, d2.size, true, 'i'⟩], []) := by
    simp only [charRun]
    rw [if_pos h2]
  have e4 : payloadRun 1 ("Hi" : String).data [d1, d2] =
      some ([⟨false, d1.size, true, 'H'⟩, ⟨false, d2.size, true, 'i'⟩], []) := by
    rw [show ("Hi" : String).data = ['H', 'i'] from rfl]
    simp only [payloadRun, e2, e3]
    exact rfl
  simp only [generate_datafile, generateFrames, e1, e4, Option.map_some', Option.some.injEq]
  rw [show ([(⟨true, 2, false, nulChar⟩ : Frame)] ++
      [⟨false, d1.size, true, 'H'⟩, ⟨false, d2.size, true, 'i'⟩]) =
    [⟨true, 2, false, nulChar⟩, ⟨false, d1.size, true, 'H'⟩,
      ⟨false, d2.size, true, 'i'⟩] from rfl]
  simp only [List.map_cons, List.map_nil]
  rw [show frameLine ⟨true, 2, false, nulChar⟩ =
    "1_00000000000000000000000000000010_0_00000000" from by decide]
  exact rfl

/-- Witness for the amended C4: with all size draws equal to 0 the four
lines are exactly the ones the spec lists. -/
theorem generate_hi_chance_one_witness :
    generate_datafile "Hi" 1 [⟨0, 0, 'A'⟩, ⟨0, 0, 'A'⟩, ⟨0, 0, 'A'⟩] =
      some ["# Hi", "1_00000000000000000000000000000010_0_00000000",
        "0_00000000000000000000000000000000_1_01001000",
        "0_00000000000000000000000000000000_1_01101001"] :=
  (generate_hi_chance_one ⟨0, 0, 'A'⟩ ⟨0, 0, 'A'⟩ ⟨0, 0, 'A'⟩
    (by decide) (by decide) (by decide)).trans (by decide)

/-- C7: with `random_value_chance = 0` the generator never terminates: every
`rand.uniform(0, 1)` draw is nonnegative, so the Bernoulli test
`random_number < 0` never succeeds and the preamble loop never exits — in the
oracle model, the run returns `none` on every finite draw sequence, however
long, with only noise frames (never the terminal frame) written. -/
theorem generate_datafile_chance_zero_diverges (data : String) (draws : List Draw)
    (hu : ∀ d ∈ draws, 0 ≤ d.u) :
    generate_datafile data 0 draws = none := by
  have hp : ∀ draws' : List Draw, (∀ d ∈ draws', 0 ≤ d.u) →
      preambleRun 0 data.length draws' = none := by
    intro draws'
    induction draws' with
    | nil => intro _; rfl
    | cons d rest ih =>
      intro h
      simp only [preambleRun]
      rw [if_neg (not_lt.mpr (h d (List.mem_cons_self d rest))),
        ih (fun d' hd' => h d' (List.mem_cons_of_mem d hd'))]
  simp only [generate_datafile, generateFrames, hp draws hu]
  rfl

/-- Witness for C7 on a concrete nonempty draw sequence. -/
theorem generate_datafile_chance_zero_diverges_witness :
    generate_datafile "A" 0 [⟨ratHalf, 0, 'A'⟩, ⟨0, 7, 'B'⟩] = none :=
  generate_datafile_chance_zero_diverges "A" [⟨ratHalf, 0, 'A'⟩, ⟨0, 7, 'B'⟩] (by decide)

/-- C8: with `random_value_chance = 1.0` no noise frame is ever emitted:
every `rand.uniform(0, 1)` draw is below 1, so each sampling loop succeeds on
its first trial and a terminating run emits exactly `data.length + 1`
frames, each of which is the terminal size frame or a valid data frame
(never a noise frame, which would have both valid bits false). -/
theorem generateFrames_chance_one_no_noise (data : String) (draws : List Draw)
    (fs : List Frame) (hu : ∀ d ∈ draws, d.u < 1)
    (h : generateFrames data 1 draws = some fs) :
    fs.length = data.length + 1 ∧
    ∀ f ∈ fs, f.size_valid = true ∨ f.data_valid = true := by
  have hpay : ∀ (cs : List Char) (draws' : List Draw) (fs2 : List Frame) (rest2 : List Draw),
      (∀ d ∈ draws', d.u < 1) → payloadRun 1 cs draws' = some (fs2, rest2) →
      fs2.length = cs.length ∧ ∀ f ∈ fs2, f.data_valid = true := by
    intro cs
    induction cs with
    | nil =>
      intro draws' fs2 rest2 _ h2
      simp only [payloadRun, Option.some.injEq, Prod.mk.injEq] at h2
      obtain ⟨h2a, _⟩ := h2
      subst h2a
      exact ⟨rfl, by simp⟩
    | cons k cs ih =>
      intro draws' fs2 rest2 hu' h2
      rcases draws' with _ | ⟨d, r⟩
      · simp [payloadRun, charRun] at h2
      · have hd : d.u < 1 := hu' d (List.mem_cons_self d r)
        have hcr : charRun 1 k (d :: r) = some ([⟨false, d.size, true, k⟩], r) := by
          simp only [charRun]
          rw [if_pos hd]
        simp only [payloadRun, hcr] at h2
        rcases hq : payloadRun 1 cs r with _ | ⟨fs3, rest3⟩ <;> rw [hq] at h2
        · simp at h2
        · simp only [Option.some.injEq, Prod.mk.injEq] at h2
          obtain ⟨h2a, _⟩ := h2
          subst h2a
          obtain ⟨hlen3, hall⟩ := ih r fs3 rest3
            (fun d' hd' => hu' d' (List.mem_cons_of_mem d hd')) hq
          refine ⟨by simp [hlen3], ?_⟩
          intro f hf
          rcases List.mem_cons.mp hf with rfl | hf
          · rfl
          · exact hall f hf
  obtain ⟨fs1, rest, fs2, rest2, hp, hq, hfs⟩ := generateFrames_eq_some h
  subst hfs
  rcases draws with _ | ⟨d, r⟩
  · simp [preambleRun] at hp
  · have hd : d.u < 1 := hu d (List.mem_cons_self d r)
    have hpre : preambleRun 1 data.length (d :: r) =
        some ([⟨true, data.length, false, nulChar⟩], r) := by
      simp only [preambleRun]
      rw [if_pos hd]
    rw [hpre] at hp
    simp only [Option.some.injEq, Prod.mk.injEq] at hp
    obtain ⟨hp1, hp2⟩ := hp
    subst hp1
    subst hp2
    obtain ⟨hlen2, hall2⟩ := hpay data.data r fs2 rest2
      (fun d' hd' => hu d' (List.mem_cons_of_mem d hd')) hq
    constructor
    · rw [List.length_append, hlen2, List.length_singleton]
      have hsl : data.length = data.data.length := rfl
      rw [hsl]
      omega
    · intro f hf
      rcases List.mem_append.mp hf with hf | hf
      · rw [List.mem_singleton] at hf
        subst hf
        exact Or.inl rfl
      · exact Or.inr (hall2 f hf)

/-- Witness for C8: a terminating run on `"Hi"` with three draws. -/
theorem generateFrames_chance_one_no_noise_witness :
    ([⟨true, 2, false, nulChar⟩, ⟨false, 0, true, 'H'⟩, ⟨false, 0, true, 'i'⟩] :
        List Frame).length = ("Hi" : String).length + 1 ∧
    ∀ f ∈ ([⟨true, 2, false, nulChar⟩, ⟨false, 0, true, 'H'⟩,
        ⟨false, 0, true, 'i'⟩] : List Frame),
      f.size_valid = true ∨ f.data_valid = true :=
  generateFrames_chance_one_no_noise "Hi" [⟨0, 0, 'A'⟩, ⟨0, 0, 'A'⟩, ⟨0, 0, 'A'⟩]
    [⟨true, 2, false, nulChar⟩, ⟨false, 0, true, 'H'⟩, ⟨false, 0, true, 'i'⟩]
    (by decide) (by decide)

/-- C9: invoked with no positional argument (`argv` has no element at index
1), the program fails with an uncaught indexing error before writing any
file: the model returns `Except.error` carrying the Python message and no
file contents, with no reporting or recovery. -/
theorem mainRun_missing_arg (argv : List String) (draws : List Draw)
    (h : argv[1]? = none) :
    mainRun argv draws = Except.error "IndexError: list index out of range" := by
  simp only [mainRun, h]

/-- Witness for C9: the program invoked with its own name only. -/
theorem mainRun_missing_arg_witness :
    mainRun ["data_generation.py"] [] =
      Except.error "IndexError: list index out of range" :=
  mainRun_missing_arg ["data_generation.py"] [] rfl
